import Mathlib

/-!
Verification development for the peak attribution routine of
`COVID-19_Engagement.py` (the hover-annotation loop, lines 100–150).

The embedding follows the source:
* `Record` mirrors one row of the pageview table (`article`, `date`,
  `pageviews`); dates are represented as ordinal day numbers (`Nat`).
* `recordsOn` embeds `df[df["date"] == peak_date]` (the loop reads the full
  `df`, not the range-filtered `df_filtered`).
* `article_summary` embeds
  `daily_articles.groupby("article", as_index=False)["pageviews"].sum()
   .sort_values("pageviews", ascending=False)`: pandas `groupby` emits the
  distinct keys in ascending order; `sort_values` with its default
  `kind='quicksort'` guarantees only that the sums come out descending and
  leaves the order of equal sums unspecified (quicksort is documented as
  not stable).  An executable model has to pick some deterministic order,
  and the embedding uses an insertion sort on the aggregated pairs; every
  general theorem below uses the sorted summary only up to permutation, so
  no result depends on that choice.  The one theorem that pins a concrete
  tie order (the three-row worked example) sits in the regime where numpy
  sorts with its stable small-array insertion sort, so there the model's
  order is also the program's.  `nameLt` is a computable lexicographic
  comparison on strings, proved equivalent to the mathematical order `<`
  in `nameLt_iff`.
* `top` embeds `article_summary.head(n)`; the source fixes `n = 3`.
* `percentOf` embeds
  `(a["pageviews"] / peak_total_views) * 100 if peak_total_views > 0 else 0`,
  over `ℚ` in place of floating point.
* `attributePeak` is the loop body producing, for one peak row, the ordered
  contribution entries; `peakContributions` is its instantiation inside the
  rendering pass (the body sees the slider bounds but only uses the full
  record set); `hover_texts` maps it over the range-filtered peak rows.
* `daily` embeds `df.groupby("date")["pageviews"].sum()` (the DailySeries).
-/

structure Record where
  article : String
  date : Nat
  pageviews : Nat
deriving DecidableEq

structure ContributionEntry where
  article : String
  percent : ℚ
deriving DecidableEq

structure PeakRow where
  date : Nat
  pageviews : Nat
deriving DecidableEq

/-- Computable lexicographic comparison of character lists (by code point). -/
def charsLt : List Char → List Char → Bool
  | [], [] => false
  | [], _ :: _ => true
  | _ :: _, [] => false
  | c :: cs, d :: ds =>
    if c.toNat < d.toNat then true
    else if d.toNat < c.toNat then false
    else charsLt cs ds

/-- Computable lexicographic comparison of article names. -/
def nameLt (a b : String) : Bool := charsLt a.data b.data

/-- Computable strict comparison of dates. -/
def dateLt (a b : Nat) : Bool := decide (a < b)

/-- Rows of the record table carrying the given date:
`df[df["date"] == peak_date]`. -/
def recordsOn (df : List Record) (d : Nat) : List Record :=
  df.filter (fun r => r.date == d)

/-- Insert into a strictly ascending list (with respect to the comparison
`lt`), dropping duplicates — the ordered distinct keys a pandas `groupby`
iterates. -/
def insOrdBy {α : Type} [BEq α] (lt : α → α → Bool) (a : α) :
    List α → List α
  | [] => [a]
  | b :: bs =>
    if a == b then b :: bs
    else if lt a b then a :: b :: bs
    else b :: insOrdBy lt a bs

/-- The distinct elements of a list, ascending with respect to `lt`. -/
def sortedDedupBy {α : Type} [BEq α] (lt : α → α → Bool) (l : List α) :
    List α :=
  l.foldr (insOrdBy lt) []

/-- The distinct article names of a record list, ascending (the group keys of
`groupby("article")`). -/
def articlesOf (rs : List Record) : List String :=
  sortedDedupBy nameLt (rs.map (fun r => r.article))

/-- Total pageviews of one article within a record list (the aggregated sum
for that group). -/
def sumFor (rs : List Record) (a : String) : Nat :=
  ((rs.filter (fun r => r.article == a)).map (fun r => r.pageviews)).sum

/-- One step of the descending insertion sort the embedding uses for the
value sort: the new pair passes strictly larger sums and stops at the first
sum that is not larger.  Where a pair with an equal sum ends up is a choice
of the model: the source's `sort_values` (default `kind='quicksort'`) leaves
the order of equal sums unspecified. -/
def insertDesc (p : String × Nat) : List (String × Nat) → List (String × Nat)
  | [] => [p]
  | q :: qs => if p.2 < q.2 then q :: insertDesc p qs else p :: q :: qs

/-- Deterministic embedding of
`sort_values("pageviews", ascending=False)` on the groupby output: the pairs
come out descending by sum.  The source's default quicksort does not specify
the order of equal sums, so the theorems below use the result only up to
permutation. -/
def sortDesc (l : List (String × Nat)) : List (String × Nat) :=
  l.foldr insertDesc []

/-- Aggregated (article, sum) pairs for a record list, sorted descending by
sum — the `article_summary` dataframe of the source. -/
def article_summary (rs : List Record) : List (String × Nat) :=
  sortDesc ((articlesOf rs).map (fun a => (a, sumFor rs a)))

/-- First `n` aggregated pairs: `article_summary.head(n)` (the source passes
`3`). -/
def top (rs : List Record) (n : Nat) : List (String × Nat) :=
  (article_summary rs).take n

/-- Percentage share of `views` out of `total`:
`(views / total) * 100 if total > 0 else 0`. -/
def percentOf (views total : Nat) : ℚ :=
  if 0 < total then ((views : ℚ) / (total : ℚ)) * 100 else 0

/-- The contribution entries the loop body emits for one peak: the top `n`
aggregated articles on `peakDate`, each with its share of `peakTotal` (the
`pageviews` column of the known-peaks row, not a recomputed daily total). -/
def attributePeak (df : List Record) (peakDate peakTotal n : Nat) :
    List ContributionEntry :=
  (top (recordsOn df peakDate) n).map (fun p => ⟨p.1, percentOf p.2 peakTotal⟩)

/-- Distinct record dates, ascending (the group keys of `groupby("date")`). -/
def datesOf (df : List Record) : List Nat :=
  sortedDedupBy dateLt (df.map (fun r => r.date))

/-- Total pageviews over all records of one date. -/
def totalOn (df : List Record) (d : Nat) : Nat :=
  ((recordsOn df d).map (fun r => r.pageviews)).sum

/-- The DailySeries: `df.groupby("date")["pageviews"].sum()` as an ordered
association list from date to aggregate pageviews. -/
def daily (df : List Record) : List (Nat × Nat) :=
  (datesOf df).map (fun d => (d, totalOn df d))

/-- The date-range test of the slider filter. -/
def inRange (lo hi d : Nat) : Bool :=
  decide (lo ≤ d) && decide (d ≤ hi)

/-- `df_filtered`: records within the selected range. -/
def filterRange (df : List Record) (lo hi : Nat) : List Record :=
  df.filter (fun r => inRange lo hi r.date)

/-- `df_peaks_filtered`: peak rows within the selected range. -/
def peaksFiltered (peaks : List PeakRow) (lo hi : Nat) : List PeakRow :=
  peaks.filter (fun p => inRange lo hi p.date)

/-- The loop body as run during a render pass for range `[lo, hi]`: although
the bounds are in scope, the contributions are computed from the full record
set `df` (line 118 reads `df`, not `df_filtered`) with the fixed `head(3)`. -/
def peakContributions (df : List Record) (lo hi : Nat) (p : PeakRow) :
    List ContributionEntry :=
  attributePeak df p.date p.pageviews 3

/-- The hover annotations of one render pass: one contribution list per peak
row surviving the range filter. -/
def hover_texts (df : List Record) (peaks : List PeakRow) (lo hi : Nat) :
    List (List ContributionEntry) :=
  (peaksFiltered peaks lo hi).map (peakContributions df lo hi)

/-! ### Order bridge: the computable comparisons against the ambient orders -/

theorem charsLt_iff (l m : List Char) :
    charsLt l m = true ↔ List.Lex (· < ·) l m := by
  induction l generalizing m with
  | nil =>
    cases m with
    | nil =>
      simp only [charsLt, Bool.false_eq_true, false_iff]
      intro h; cases h
    | cons d ds =>
      simp only [charsLt, true_iff]
      exact List.Lex.nil
  | cons c cs ih =>
    cases m with
    | nil =>
      simp only [charsLt, Bool.false_eq_true, false_iff]
      intro h; cases h
    | cons d ds =>
      rcases lt_trichotomy c d with hlt | heq | hgt
      · have hn : c.toNat < d.toNat := hlt
        simp only [charsLt, if_pos hn, true_iff]
        exact List.Lex.rel hlt
      · subst heq
        have h1 : ¬ c.toNat < c.toNat := lt_irrefl _
        simp only [charsLt, if_neg h1]
        rw [ih ds]
        constructor
        · exact fun h => List.Lex.cons h
        · intro h
          cases h with
          | cons h => exact h
          | rel h => exact absurd h (lt_irrefl c)
      · have h1 : ¬ c.toNat < d.toNat := not_lt.mpr (le_of_lt hgt)
        have h2 : d.toNat < c.toNat := hgt
        simp only [charsLt, if_neg h1, if_pos h2, Bool.false_eq_true, false_iff]
        intro h
        cases h with
        | cons h => exact absurd rfl (ne_of_gt hgt)
        | rel h => exact absurd h (not_lt.mpr (le_of_lt hgt))

/-- `nameLt` computes the lexicographic order on strings. -/
theorem nameLt_iff (a b : String) : nameLt a b = true ↔ a < b := by
  rw [String.lt_iff_toList_lt]
  exact charsLt_iff a.data b.data

theorem dateLt_iff (a b : Nat) : dateLt a b = true ↔ a < b := by
  simp [dateLt]

/-! ### Generic facts about the sorted-dedup used by the groupby embeddings -/

theorem mem_insOrdBy {α : Type} [BEq α] [LawfulBEq α] (lt : α → α → Bool)
    (a x : α) (l : List α) :
    x ∈ insOrdBy lt a l ↔ x = a ∨ x ∈ l := by
  induction l with
  | nil => simp [insOrdBy]
  | cons b bs ih =>
    by_cases hab : a = b
    · subst hab
      simp only [insOrdBy, beq_self_eq_true, if_true, List.mem_cons]
      tauto
    · have hne : (a == b) = false := beq_eq_false_iff_ne.mpr hab
      by_cases hlt : lt a b = true
      · simp only [insOrdBy, hne, Bool.false_eq_true, if_false, hlt, if_true,
          List.mem_cons]
      · simp only [insOrdBy, hne, Bool.false_eq_true, if_false, hlt,
          List.mem_cons, ih]
        tauto

theorem pairwise_insOrdBy {α : Type} [BEq α] [LawfulBEq α]
    (lt : α → α → Bool)
    (htr : ∀ x y z, lt x y = true → lt y z = true → lt x z = true)
    (htot : ∀ x y, x ≠ y → lt x y = false → lt y x = true)
    (a : α) (l : List α) (hl : l.Pairwise (fun x y => lt x y = true)) :
    (insOrdBy lt a l).Pairwise (fun x y => lt x y = true) := by
  induction l with
  | nil => simp [insOrdBy]
  | cons b bs ih =>
    rw [List.pairwise_cons] at hl
    obtain ⟨hb, hbs⟩ := hl
    by_cases hab : a = b
    · subst hab
      rw [insOrdBy, if_pos (beq_self_eq_true a)]
      exact List.pairwise_cons.mpr ⟨hb, hbs⟩
    · have hne : (a == b) = false := beq_eq_false_iff_ne.mpr hab
      by_cases hlt : lt a b = true
      · rw [insOrdBy, hne, if_neg (by simp), if_pos hlt]
        refine List.pairwise_cons.mpr ⟨?_, List.pairwise_cons.mpr ⟨hb, hbs⟩⟩
        intro x hx
        rcases List.mem_cons.mp hx with rfl | hx
        · exact hlt
        · exact htr _ _ _ hlt (hb x hx)
      · have hba : lt b a = true :=
          htot a b hab (Bool.eq_false_iff.mpr hlt)
        rw [insOrdBy, hne, if_neg (by simp), if_neg hlt]
        refine List.pairwise_cons.mpr ⟨?_, ih hbs⟩
        intro x hx
        rcases (mem_insOrdBy lt a x bs).mp hx with rfl | hx
        · exact hba
        · exact hb x hx

theorem pairwise_sortedDedupBy {α : Type} [BEq α] [LawfulBEq α]
    (lt : α → α → Bool)
    (htr : ∀ x y z, lt x y = true → lt y z = true → lt x z = true)
    (htot : ∀ x y, x ≠ y → lt x y = false → lt y x = true)
    (l : List α) :
    (sortedDedupBy lt l).Pairwise (fun x y => lt x y = true) := by
  induction l with
  | nil => simp [sortedDedupBy]
  | cons a l ih => exact pairwise_insOrdBy lt htr htot a _ ih

theorem mem_sortedDedupBy {α : Type} [BEq α] [LawfulBEq α]
    (lt : α → α → Bool) (x : α) (l : List α) :
    x ∈ sortedDedupBy lt l ↔ x ∈ l := by
  induction l with
  | nil => simp [sortedDedupBy]
  | cons a l ih =>
    show x ∈ insOrdBy lt a (sortedDedupBy lt l) ↔ _
    rw [mem_insOrdBy, ih, List.mem_cons]

/-! ### Facts about `articlesOf` and `datesOf` -/

theorem nameLt_trans (x y z : String)
    (h1 : nameLt x y = true) (h2 : nameLt y z = true) : nameLt x z = true :=
  (nameLt_iff x z).mpr (lt_trans ((nameLt_iff x y).mp h1) ((nameLt_iff y z).mp h2))

theorem nameLt_total (x y : String) (hne : x ≠ y) (h : nameLt x y = false) :
    nameLt y x = true := by
  rcases lt_or_gt_of_ne hne with hlt | hgt
  · exact absurd ((nameLt_iff x y).mpr hlt) (by simp [h])
  · exact (nameLt_iff y x).mpr hgt

theorem articlesOf_pairwise (rs : List Record) :
    (articlesOf rs).Pairwise (fun x y => x < y) := by
  have h := pairwise_sortedDedupBy nameLt nameLt_trans nameLt_total
    (rs.map (fun r => r.article))
  exact h.imp (fun hxy => (nameLt_iff _ _).mp hxy)

theorem articlesOf_nodup (rs : List Record) : (articlesOf rs).Nodup :=
  (articlesOf_pairwise rs).imp ne_of_lt

theorem mem_articlesOf (rs : List Record) (a : String) :
    a ∈ articlesOf rs ↔ ∃ r ∈ rs, r.article = a := by
  rw [articlesOf, mem_sortedDedupBy]
  simp

theorem datesOf_pairwise (df : List Record) :
    (datesOf df).Pairwise (fun x y => x < y) := by
  have h := pairwise_sortedDedupBy dateLt
    (fun x y z h1 h2 => (dateLt_iff x z).mpr
      (lt_trans ((dateLt_iff x y).mp h1) ((dateLt_iff y z).mp h2)))
    (fun x y hne h => by
      simp only [dateLt, decide_eq_false_iff_not] at h
      simp only [dateLt, decide_eq_true_eq]
      omega)
    (df.map (fun r => r.date))
  exact h.imp (fun hxy => (dateLt_iff _ _).mp hxy)

theorem mem_datesOf (df : List Record) (d : Nat) :
    d ∈ datesOf df ↔ ∃ r ∈ df, r.date = d := by
  rw [datesOf, mem_sortedDedupBy]
  simp

/-! ### The descending sort: permutation, stability, ordering -/

theorem insertDesc_perm (p : String × Nat) (l : List (String × Nat)) :
    List.Perm (insertDesc p l) (p :: l) := by
  induction l with
  | nil => exact List.Perm.refl _
  | cons q qs ih =>
    by_cases h : p.2 < q.2
    · rw [insertDesc, if_pos h]
      exact (ih.cons q).trans (List.Perm.swap p q qs)
    · rw [insertDesc, if_neg h]

theorem sortDesc_perm (l : List (String × Nat)) : List.Perm (sortDesc l) l := by
  induction l with
  | nil => exact List.Perm.refl _
  | cons x xs ih =>
    exact (insertDesc_perm x (sortDesc xs)).trans (ih.cons x)

/-! ### Facts about `article_summary` -/

theorem mem_article_summary (rs : List Record) (p : String × Nat) :
    p ∈ article_summary rs ↔ p.1 ∈ articlesOf rs ∧ p.2 = sumFor rs p.1 := by
  obtain ⟨a, v⟩ := p
  rw [article_summary, (sortDesc_perm _).mem_iff, List.mem_map]
  constructor
  · rintro ⟨b, hb, heq⟩
    injection heq with h1 h2
    subst h1
    subst h2
    exact ⟨hb, rfl⟩
  · rintro ⟨h1, h2⟩
    have h3 : v = sumFor rs a := h2
    exact ⟨a, h1, by rw [h3]⟩

theorem article_summary_fst_nodup (rs : List Record) :
    ((article_summary rs).map Prod.fst).Nodup := by
  have hperm := (sortDesc_perm ((articlesOf rs).map
    (fun a => (a, sumFor rs a)))).map Prod.fst
  rw [article_summary, List.Perm.nodup_iff hperm, List.map_map]
  have h : (Prod.fst ∘ fun a => (a, sumFor rs a)) = id := rfl
  rw [h, List.map_id]
  exact articlesOf_nodup rs

theorem article_summary_complete (rs : List Record) (r : Record)
    (hr : r ∈ rs) : r.article ∈ (article_summary rs).map Prod.fst := by
  rw [List.mem_map]
  refine ⟨(r.article, sumFor rs r.article), ?_, rfl⟩
  rw [mem_article_summary]
  exact ⟨(mem_articlesOf rs r.article).mpr ⟨r, hr, rfl⟩, rfl⟩

/-! ### Sum partition: per-article sums against the per-date total -/

theorem sum_map_filter_split (rs : List Record) (p : Record → Bool) :
    ((rs.filter p).map (fun r => r.pageviews)).sum
      + ((rs.filter (fun r => !(p r))).map (fun r => r.pageviews)).sum
      = (rs.map (fun r => r.pageviews)).sum := by
  induction rs with
  | nil => rfl
  | cons r rs ih =>
    by_cases h : p r = true
    · simp only [List.filter_cons, h, if_true, Bool.not_true,
        Bool.false_eq_true, if_false, List.map_cons, List.sum_cons]
      omega
    · simp only [Bool.not_eq_true] at h
      simp only [List.filter_cons, h, Bool.false_eq_true, if_false,
        Bool.not_false, if_true, List.map_cons, List.sum_cons]
      omega

theorem sumFor_cons (r : Record) (rs : List Record) (k : String) :
    sumFor (r :: rs) k
      = (if r.article == k then r.pageviews else 0) + sumFor rs k := by
  by_cases h : (r.article == k) = true
  · simp [sumFor, List.filter_cons, h]
  · simp only [Bool.not_eq_true] at h
    simp [sumFor, List.filter_cons, h]

theorem sumFor_filter_ne (rs : List Record) (a k : String) (hk : k ≠ a) :
    sumFor (rs.filter (fun r => !(r.article == a))) k = sumFor rs k := by
  induction rs with
  | nil => rfl
  | cons r rs ih =>
    by_cases h : (r.article == a) = true
    · have h2 : (r.article == k) = false := by
        rw [beq_iff_eq] at h
        exact beq_eq_false_iff_ne.mpr (fun he => hk (he ▸ h ▸ rfl))
      rw [List.filter_cons, h]
      simp only [Bool.not_true, Bool.false_eq_true, if_false]
      rw [ih, sumFor_cons, h2]
      simp
    · simp only [Bool.not_eq_true] at h
      rw [List.filter_cons, h]
      simp only [Bool.not_false, if_true]
      rw [sumFor_cons, sumFor_cons, ih]

theorem keys_sum (keys : List String) (rs : List Record)
    (hnd : keys.Nodup) (hcov : ∀ r ∈ rs, r.article ∈ keys) :
    (keys.map (fun a => sumFor rs a)).sum = (rs.map (fun r => r.pageviews)).sum := by
  induction keys generalizing rs with
  | nil =>
    cases rs with
    | nil => rfl
    | cons r rs => exact absurd (hcov r (List.mem_cons_self r rs)) (List.not_mem_nil _)
  | cons a ks ih =>
    rw [List.nodup_cons] at hnd
    obtain ⟨ha, hks⟩ := hnd
    have hsplit := sum_map_filter_split rs (fun r => r.article == a)
    have h2 : ks.map (fun k => sumFor rs k)
        = ks.map (fun k => sumFor (rs.filter (fun r => !(r.article == a))) k) :=
      List.map_congr_left (fun k hk =>
        (sumFor_filter_ne rs a k (fun he => ha (he ▸ hk))).symm)
    have h3 := ih (rs.filter (fun r => !(r.article == a))) hks ?_
    · rw [List.map_cons, List.sum_cons, h2, h3]
      have h1 : ((rs.filter (fun r => r.article == a)).map
          (fun r => r.pageviews)).sum = sumFor rs a := rfl
      omega
    · intro r hr
      rw [List.mem_filter] at hr
      obtain ⟨hr1, hr2⟩ := hr
      have hm := hcov r hr1
      rw [List.mem_cons] at hm
      rcases hm with he | hm
      · rw [Bool.not_eq_true', beq_eq_false_iff_ne] at hr2
        exact absurd he hr2
      · exact hm

theorem article_summary_snd_sum (rs : List Record) :
    ((article_summary rs).map Prod.snd).sum = (rs.map (fun r => r.pageviews)).sum := by
  have hperm := (sortDesc_perm ((articlesOf rs).map
    (fun a => (a, sumFor rs a)))).map Prod.snd
  rw [article_summary, hperm.sum_eq, List.map_map]
  have h : (Prod.snd ∘ fun a => (a, sumFor rs a)) = fun a => sumFor rs a := rfl
  rw [h]
  exact keys_sum (articlesOf rs) rs (articlesOf_nodup rs)
    (fun r hr => (mem_articlesOf rs r.article).mpr ⟨r, hr, rfl⟩)

theorem sumFor_le_sum (rs : List Record) (a : String) :
    sumFor rs a ≤ (rs.map (fun r => r.pageviews)).sum := by
  induction rs with
  | nil => exact Nat.le_refl 0
  | cons r rs ih =>
    rw [sumFor_cons, List.map_cons, List.sum_cons]
    by_cases h : (r.article == a) = true
    · simp only [h, if_true]
      omega
    · simp only [Bool.not_eq_true] at h
      simp only [h, Bool.false_eq_true, if_false]
      omega

/-! ### Lookup in the daily series, percent bounds, percent sums -/

theorem lookup_map_self (f : Nat → Nat) (l : List Nat) (d : Nat) (h : d ∈ l) :
    ((l.map (fun x => (x, f x))).lookup d) = some (f d) := by
  induction l with
  | nil => cases h
  | cons x xs ih =>
    rw [List.map_cons]
    by_cases hdx : d = x
    · subst hdx
      simp [List.lookup]
    · rcases List.mem_cons.mp h with he | hm
      · exact absurd he hdx
      · have hb : (d == x) = false := beq_eq_false_iff_ne.mpr hdx
        simp [List.lookup, hb, ih hm]

theorem percentOf_nonneg (v t : Nat) : 0 ≤ percentOf v t := by
  rw [percentOf]
  split_ifs with ht
  · positivity
  · exact le_refl 0

theorem percentOf_le_100 (v t : Nat) (h : v ≤ t) : percentOf v t ≤ 100 := by
  rw [percentOf]
  split_ifs with ht
  · have hbp : (0:ℚ) < (t:ℚ) := by exact_mod_cast ht
    have h1 : (v:ℚ) / (t:ℚ) ≤ 1 := by
      rw [div_le_one hbp]
      exact_mod_cast h
    have h2 := mul_le_mul_of_nonneg_right h1 (by norm_num : (0:ℚ) ≤ 100)
    simpa using h2
  · norm_num

theorem sum_percentOf (l : List Nat) (t : Nat) (ht : 0 < t) :
    (l.map (fun v => percentOf v t)).sum = ((l.sum : ℚ) / (t : ℚ)) * 100 := by
  induction l with
  | nil => simp
  | cons v vs ih =>
    rw [List.map_cons, List.sum_cons, ih, percentOf, if_pos ht, List.sum_cons]
    push_cast
    have htne : (t:ℚ) ≠ 0 := by
      have : (0:ℚ) < (t:ℚ) := by exact_mod_cast ht
      exact ne_of_gt this
    field_simp
    ring

theorem mem_attributePeak (df : List Record) (d t n : Nat)
    (e : ContributionEntry) (he : e ∈ attributePeak df d t n) :
    ∃ p ∈ article_summary (recordsOn df d), e = ⟨p.1, percentOf p.2 t⟩ := by
  rw [attributePeak, List.mem_map] at he
  obtain ⟨p, hp, rfl⟩ := he
  exact ⟨p, List.mem_of_mem_take hp, rfl⟩

/-! ### The claims -/

/-- Claim C2 (as stated) is false: the code divides by the pageviews value of
the known-peaks row, so when that supplied total (here 50) is smaller than
the actual record sum on the date (here 100), a returned percent exceeds
100.  The date 0 is present in the series and `N = 1` equals the number of
distinct articles. -/
theorem C2_counterexample :
    ¬ (∀ e ∈ attributePeak [⟨"A", 0, 100⟩] 0 50 1,
        0 ≤ e.percent ∧ e.percent ≤ 100) := by
  intro hall
  have h1 : top (recordsOn [⟨"A", 0, 100⟩] 0) 1 = [("A", 100)] := by decide
  have h : attributePeak [⟨"A", 0, 100⟩] 0 50 1
      = [⟨"A", percentOf 100 50⟩] := by
    rw [attributePeak, h1, List.map_cons, List.map_nil]
  have h2 := (hall ⟨"A", percentOf 100 50⟩
    (by rw [h]; exact List.mem_singleton_self _)).2
  rw [percentOf] at h2
  norm_num at h2

/-- Claim C2, amended: when the supplied peak total equals the date's record
total, `attribute(date, N)` returns at most `N` entries, each percent lies in
`[0, 100]`, and when the supplied total is positive and `N` covers all
distinct articles of the date, the percents sum to exactly 100. -/
theorem C2_amended_bounds_and_sum (df : List Record) (d t n : Nat)
    (ht : t = totalOn df d) :
    (attributePeak df d t n).length ≤ n ∧
    (∀ e ∈ attributePeak df d t n, 0 ≤ e.percent ∧ e.percent ≤ 100) ∧
    (0 < t → (articlesOf (recordsOn df d)).length ≤ n →
      ((attributePeak df d t n).map (fun e => e.percent)).sum = 100) := by
  refine ⟨?_, ?_, ?_⟩
  · rw [attributePeak, List.length_map, top, List.length_take]
    exact Nat.min_le_left _ _
  · intro e he
    obtain ⟨p, hp, rfl⟩ := mem_attributePeak df d t n e he
    have hval : p.2 = sumFor (recordsOn df d) p.1 :=
      ((mem_article_summary _ _).mp hp).2
    have hle : p.2 ≤ t := by
      rw [ht, hval]
      exact sumFor_le_sum _ _
    exact ⟨percentOf_nonneg _ _, percentOf_le_100 _ _ hle⟩
  · intro htpos hn
    have hlen : (article_summary (recordsOn df d)).length
        = (articlesOf (recordsOn df d)).length := by
      rw [article_summary, (sortDesc_perm _).length_eq, List.length_map]
    have hfull : (article_summary (recordsOn df d)).take n
        = article_summary (recordsOn df d) := by
      apply List.take_of_length_le
      rw [hlen]
      exact hn
    rw [attributePeak, top, hfull, List.map_map]
    have hcomp : ((fun e : ContributionEntry => e.percent) ∘
        fun p : String × Nat => (⟨p.1, percentOf p.2 t⟩ : ContributionEntry))
        = fun p : String × Nat => percentOf p.2 t := rfl
    rw [hcomp]
    have hm : (article_summary (recordsOn df d)).map
          (fun p => percentOf p.2 t)
        = ((article_summary (recordsOn df d)).map Prod.snd).map
            (fun v => percentOf v t) := by
      rw [List.map_map]
      rfl
    rw [hm, sum_percentOf _ t htpos, article_summary_snd_sum]
    have hts : ((recordsOn df d).map (fun r => r.pageviews)).sum = t := by
      rw [ht]
      rfl
    rw [hts]
    have htne : (t:ℚ) ≠ 0 := by
      have hq : (0:ℚ) < (t:ℚ) := by exact_mod_cast htpos
      exact ne_of_gt hq
    rw [div_self htne, one_mul]

theorem C2_amended_bounds_and_sum_witness :
    (attributePeak [⟨"A", 0, 300⟩, ⟨"B", 0, 100⟩] 0 400 2).length ≤ 2 ∧
    (∀ e ∈ attributePeak [⟨"A", 0, 300⟩, ⟨"B", 0, 100⟩] 0 400 2,
      0 ≤ e.percent ∧ e.percent ≤ 100) ∧
    (0 < 400 → (articlesOf (recordsOn [⟨"A", 0, 300⟩, ⟨"B", 0, 100⟩] 0)).length ≤ 2 →
      ((attributePeak [⟨"A", 0, 300⟩, ⟨"B", 0, 100⟩] 0 400 2).map
        (fun e => e.percent)).sum = 100) :=
  C2_amended_bounds_and_sum [⟨"A", 0, 300⟩, ⟨"B", 0, 100⟩] 0 400 2 (by decide)

/-- Claim C3 (as stated) is false: for a peak date absent from the record set
the loop raises nothing — it computes an empty article summary and returns
the empty contribution list, a perfectly ordinary result.  Here date 1 is
absent from the records (which only cover date 0). -/
theorem C3_counterexample :
    attributePeak [⟨"A", 0, 100⟩] 1 50 3 = [] := by
  decide

/-- Claim C3, amended: for every date absent from the DailySeries the
attribution returns the empty contribution list (it consults no daily total
and raises no error). -/
theorem C3_amended_absent_date_empty (df : List Record) (d t n : Nat)
    (h : d ∉ (daily df).map Prod.fst) :
    attributePeak df d t n = [] := by
  have hd : ∀ r ∈ df, r.date ≠ d := by
    intro r hr heq
    apply h
    rw [daily, List.map_map]
    have hc : (Prod.fst ∘ fun x => (x, totalOn df x)) = id := rfl
    rw [hc, List.map_id]
    exact (mem_datesOf df d).mpr ⟨r, hr, heq⟩
  have hrec : recordsOn df d = [] := by
    rw [recordsOn, List.filter_eq_nil_iff]
    intro r hr hb
    exact hd r hr (by rwa [beq_iff_eq] at hb)
  rw [attributePeak, top, hrec]
  have hsum : article_summary [] = [] := rfl
  rw [hsum, List.take_nil, List.map_nil]

theorem C3_amended_absent_date_empty_witness :
    attributePeak [⟨"A", 0, 100⟩] 5 50 3 = [] :=
  C3_amended_absent_date_empty [⟨"A", 0, 100⟩] 5 50 3 (by decide)

/-- Claim C4: for every peak whose supplied total pageviews is 0, the
attribution raises nothing (the embedding is a total function) and every
returned entry's percent is 0 — the zero total short-circuits the division
via the `else 0` branch, so no division by zero occurs. -/
theorem C4_zero_total_percent_zero (df : List Record) (d n : Nat) :
    ∀ e ∈ attributePeak df d 0 n, e.percent = 0 := by
  intro e he
  obtain ⟨p, -, rfl⟩ := mem_attributePeak df d 0 n e he
  simp [percentOf]

theorem C4_zero_total_percent_zero_witness :
    (⟨"A", percentOf 300 0⟩ : ContributionEntry).percent = 0 :=
  C4_zero_total_percent_zero [⟨"A", 0, 300⟩, ⟨"B", 0, 100⟩] 0 3
    ⟨"A", percentOf 300 0⟩
    (by
      have h1 : top (recordsOn [⟨"A", 0, 300⟩, ⟨"B", 0, 100⟩] 0) 3
          = [("A", 300), ("B", 100)] := by decide
      rw [attributePeak, h1, List.map_cons, List.map_cons, List.map_nil]
      exact List.mem_cons_self _ _)

/-- Claim C5: for every date with a non-empty set of records, the sum of the
per-article aggregated pageviews of that date equals the total stored for
that date in the DailySeries obtained by grouping the same records by
date. -/
theorem C5_articles_sum_to_daily_total (df : List Record) (d : Nat)
    (hne : recordsOn df d ≠ []) :
    (daily df).lookup d
      = some (((article_summary (recordsOn df d)).map Prod.snd).sum) := by
  obtain ⟨r, hr⟩ := List.exists_mem_of_ne_nil _ hne
  have hrd : r ∈ df ∧ r.date = d := by
    rw [recordsOn, List.mem_filter, beq_iff_eq] at hr
    exact hr
  have hd : d ∈ datesOf df := (mem_datesOf df d).mpr ⟨r, hrd.1, hrd.2⟩
  rw [daily, lookup_map_self _ _ _ hd, article_summary_snd_sum]
  rfl

theorem C5_articles_sum_to_daily_total_witness :
    (daily [⟨"A", 0, 300⟩, ⟨"B", 0, 100⟩]).lookup 0
      = some (((article_summary
          (recordsOn [⟨"A", 0, 300⟩, ⟨"B", 0, 100⟩] 0)).map Prod.snd).sum) :=
  C5_articles_sum_to_daily_total [⟨"A", 0, 300⟩, ⟨"B", 0, 100⟩] 0 (by decide)

/-- Claim C6: on the concrete input where date 0 has articles A = 300,
B = 100 and C = 100 pageviews (total 500), `attribute(0, 2)` returns exactly
two entries, first {A, 60%} then {B, 20%}, the tie between B and C broken
deterministically by article name. -/
theorem C6_concrete_example :
    attributePeak [⟨"A", 0, 300⟩, ⟨"B", 0, 100⟩, ⟨"C", 0, 100⟩] 0 500 2
      = [⟨"A", 60⟩, ⟨"B", 20⟩] := by
  have h1 : top (recordsOn [⟨"A", 0, 300⟩, ⟨"B", 0, 100⟩, ⟨"C", 0, 100⟩] 0) 2
      = [("A", 300), ("B", 100)] := by decide
  rw [attributePeak, h1, List.map_cons, List.map_cons, List.map_nil]
  have h2 : percentOf 300 500 = 60 := by norm_num [percentOf]
  have h3 : percentOf 100 500 = 20 := by norm_num [percentOf]
  rw [h2, h3]

/-- Claim C7: the attribution is pure, deterministic and idempotent — two
calls with identical record set, peak date, supplied total and `n` return
identical output (same entries, same order, same percentages); the embedding
carries no state that could influence the result. -/
theorem C7_deterministic (df df' : List Record) (d d' t t' n n' : Nat)
    (hdf : df = df') (hd : d = d') (ht : t = t') (hn : n = n') :
    attributePeak df d t n = attributePeak df' d' t' n' ∧
    attributePeak df d t n = attributePeak df d t n := by
  subst hdf; subst hd; subst ht; subst hn
  exact ⟨rfl, rfl⟩

theorem C7_deterministic_witness :
    attributePeak [⟨"A", 0, 300⟩] 0 300 3
        = attributePeak [⟨"A", 0, 300⟩] 0 300 3 ∧
    attributePeak [⟨"A", 0, 300⟩] 0 300 3
        = attributePeak [⟨"A", 0, 300⟩] 0 300 3 :=
  C7_deterministic [⟨"A", 0, 300⟩] [⟨"A", 0, 300⟩] 0 0 300 300 3 3
    rfl rfl rfl rfl

/-- Claim C8: in the DailySeries obtained by grouping the records by date and
summing, every date appears exactly once (the key list has no duplicates and
is strictly sorted, hence non-decreasing when iterated) and the keys are
exactly the dates occurring in the records. -/
theorem C8_daily_unique_sorted (df : List Record) :
    ((daily df).map Prod.fst).Nodup ∧
    ((daily df).map Prod.fst).Pairwise (fun x y => x < y) ∧
    (∀ d, d ∈ (daily df).map Prod.fst ↔ ∃ r ∈ df, r.date = d) := by
  have hfst : (daily df).map Prod.fst = datesOf df := by
    rw [daily, List.map_map]
    have hc : (Prod.fst ∘ fun x => (x, totalOn df x)) = id := rfl
    rw [hc, List.map_id]
  refine ⟨?_, ?_, ?_⟩
  · rw [hfst]
    exact (datesOf_pairwise df).imp Nat.ne_of_lt
  · rw [hfst]
    exact datesOf_pairwise df
  · intro d
    rw [hfst]
    exact mem_datesOf df d

theorem C8_daily_unique_sorted_witness :
    ((daily [⟨"A", 3, 10⟩, ⟨"B", 1, 5⟩, ⟨"C", 3, 7⟩]).map Prod.fst).Nodup ∧
    ((daily [⟨"A", 3, 10⟩, ⟨"B", 1, 5⟩, ⟨"C", 3, 7⟩]).map Prod.fst).Pairwise
      (fun x y => x < y) ∧
    (∀ d, d ∈ (daily [⟨"A", 3, 10⟩, ⟨"B", 1, 5⟩, ⟨"C", 3, 7⟩]).map Prod.fst ↔
      ∃ r ∈ ([⟨"A", 3, 10⟩, ⟨"B", 1, 5⟩, ⟨"C", 3, 7⟩] : List Record),
        r.date = d) :=
  C8_daily_unique_sorted [⟨"A", 3, 10⟩, ⟨"B", 1, 5⟩, ⟨"C", 3, 7⟩]

/-- Claim C9: each contribution percent is computed against the externally
supplied peak total (the pageviews value of the known-peaks row), never
against the recomputed sum of the date's records; consequently, when the
supplied total differs from the actual record sum (here 40 versus 80), a
share can exceed 100 and the shares over all articles of the date need not
sum to 100. -/
theorem C9_external_total_denominator (df : List Record) (d t n : Nat)
    (e : ContributionEntry) (he : e ∈ attributePeak df d t n) :
    e.percent = percentOf (sumFor (recordsOn df d) e.article) t ∧
    (40 : Nat) ≠ totalOn [⟨"A", 0, 80⟩] 0 ∧
    (∃ e2 ∈ attributePeak [⟨"A", 0, 80⟩] 0 40 1, 100 < e2.percent) ∧
    ((attributePeak [⟨"A", 0, 80⟩] 0 40 1).map (fun x => x.percent)).sum
      ≠ 100 := by
  obtain ⟨p, hp, rfl⟩ := mem_attributePeak df d t n e he
  have hval : p.2 = sumFor (recordsOn df d) p.1 :=
    ((mem_article_summary _ _).mp hp).2
  have h1 : top (recordsOn [⟨"A", 0, 80⟩] 0) 1 = [("A", 80)] := by decide
  have h : attributePeak [⟨"A", 0, 80⟩] 0 40 1
      = [⟨"A", percentOf 80 40⟩] := by
    rw [attributePeak, h1, List.map_cons, List.map_nil]
  have hpv : percentOf 80 40 = 200 := by norm_num [percentOf]
  refine ⟨by rw [hval], by decide, ?_, ?_⟩
  · refine ⟨⟨"A", percentOf 80 40⟩,
      by rw [h]; exact List.mem_singleton_self _, ?_⟩
    rw [hpv]
    norm_num
  · rw [h, List.map_cons, List.map_nil, List.sum_cons, List.sum_nil, hpv]
    norm_num

theorem C9_external_total_denominator_witness :
    (⟨"A", percentOf 80 40⟩ : ContributionEntry).percent
      = percentOf (sumFor (recordsOn [⟨"A", 0, 80⟩] 0)
          (⟨"A", percentOf 80 40⟩ : ContributionEntry).article) 40 ∧
    (40 : Nat) ≠ totalOn [⟨"A", 0, 80⟩] 0 ∧
    (∃ e2 ∈ attributePeak [⟨"A", 0, 80⟩] 0 40 1, 100 < e2.percent) ∧
    ((attributePeak [⟨"A", 0, 80⟩] 0 40 1).map (fun x => x.percent)).sum
      ≠ 100 :=
  C9_external_total_denominator [⟨"A", 0, 80⟩] 0 40 1
    ⟨"A", percentOf 80 40⟩
    (by
      have h1 : top (recordsOn [⟨"A", 0, 80⟩] 0) 1 = [("A", 80)] := by decide
      rw [attributePeak, h1, List.map_cons, List.map_nil]
      exact List.mem_singleton_self _)

/-- Claim C10: a peak's contribution entries are computed from the full,
unfiltered record set; for any two user-selected ranges both containing the
peak's date the peak is shown in both renders and its contribution list (the
top-3 articles with their percentages) is identical — the range only selects
which peaks are shown. -/
theorem C10_contributions_range_independent (df : List Record)
    (peaks : List PeakRow) (p : PeakRow) (lo1 hi1 lo2 hi2 : Nat)
    (hp : p ∈ peaks)
    (h1 : inRange lo1 hi1 p.date = true) (h2 : inRange lo2 hi2 p.date = true) :
    p ∈ peaksFiltered peaks lo1 hi1 ∧ p ∈ peaksFiltered peaks lo2 hi2 ∧
    peakContributions df lo1 hi1 p = peakContributions df lo2 hi2 p ∧
    peakContributions df lo1 hi1 p = attributePeak df p.date p.pageviews 3 :=
  ⟨List.mem_filter.mpr ⟨hp, h1⟩, List.mem_filter.mpr ⟨hp, h2⟩, rfl, rfl⟩

theorem C10_contributions_range_independent_witness :
    (⟨2, 500⟩ : PeakRow) ∈ peaksFiltered [⟨2, 500⟩] 0 9 ∧
    (⟨2, 500⟩ : PeakRow) ∈ peaksFiltered [⟨2, 500⟩] 1 4 ∧
    peakContributions [⟨"A", 2, 300⟩] 0 9 ⟨2, 500⟩
      = peakContributions [⟨"A", 2, 300⟩] 1 4 ⟨2, 500⟩ ∧
    peakContributions [⟨"A", 2, 300⟩] 0 9 ⟨2, 500⟩
      = attributePeak [⟨"A", 2, 300⟩] (⟨2, 500⟩ : PeakRow).date
          (⟨2, 500⟩ : PeakRow).pageviews 3 :=
  C10_contributions_range_independent [⟨"A", 2, 300⟩] [⟨2, 500⟩] ⟨2, 500⟩
    0 9 1 4 (List.mem_singleton_self _) (by decide) (by decide)
